import Mathlib

/-!
Shallow embedding of the query engine of `src/app.py` (Subject Hierarchy
Explorer).  Python machine types are modelled as follows: `int` as `Int`,
`float` statistics (probabilities, asymmetry) as `ℚ`, `str` as `String`
(with the ASCII case folding of `Char.toLower` standing for `str.lower`),
Python `dict` objects as association lists in insertion order, and Python's
stable `list.sort` as insertion sort.  Every definition is executable.
-/

/-- Model of Python `str.lower()`: case-fold every character. -/
def pyLower (s : String) : String := ⟨s.data.map Char.toLower⟩

/-- Model of Python `str.strip()`: drop leading and trailing whitespace. -/
def pyStrip (s : String) : String :=
  ⟨((s.data.dropWhile Char.isWhitespace).reverse.dropWhile Char.isWhitespace).reverse⟩

/-- Model of the Python substring test `needle in hay` on character lists:
true iff `needle` occurs contiguously in the list. -/
def listContainsSub (needle : List Char) : List Char → Bool
  | [] => needle.isEmpty
  | c :: rest => needle.isPrefixOf (c :: rest) || listContainsSub needle rest

/-- Model of the Python substring test `needle in hay` on strings. -/
def pyIn (needle hay : String) : Bool := listContainsSub needle.data hay.data

/-- Lexicographic (code-point) order on character lists: the order Python
uses to compare strings. -/
def listLexLE : List Char → List Char → Bool
  | [], _ => true
  | _ :: _, [] => false
  | a :: as, b :: bs => decide (a < b) || (a == b && listLexLE as bs)

/-- Python string comparison `a <= b` (code-point lexicographic). -/
def pyStrLE (a b : String) : Bool := listLexLE a.data b.data

/-- Model of Python list slicing `l[:k]` for an arbitrary integer bound `k`:
a non-negative bound takes a prefix, a negative bound counts from the end. -/
def pySlice {α : Type} (l : List α) (k : Int) : List α :=
  if 0 ≤ k then l.take k.toNat else l.take ((l.length : Int) + k).toNat

/-- Model of Python's stable `list.sort` with boolean comparator `le`
(ascending; for `reverse=True` callers flip the comparator, which matches
CPython's reverse-sort-reverse implementation and keeps ties in input
order). -/
def stableSort {α : Type} (le : α → α → Bool) (l : List α) : List α :=
  List.insertionSort (fun a b => le a b = true) l

/-- Keys of a Python `dict` built by repeated insertion: first occurrences
of the elements of `l`, in order. -/
def dedupFirst (l : List String) : List String :=
  l.foldl (fun acc x => if x ∈ acc then acc else acc ++ [x]) []

/-- Python `d.get(k, dflt)` on an association list. -/
def dictGetD {α : Type} (d : List (String × α)) (k : String) (dflt : α) : α :=
  match d.find? (fun p => p.1 == k) with
  | some p => p.2
  | none => dflt

/-- Round-half-even to an integer (the rounding mode of Python `round`). -/
def pyRoundInt (x : ℚ) : Int :=
  let f : Int := ⌊x⌋
  let r : ℚ := x - f
  if r < 1 / 2 then f
  else if 1 / 2 < r then f + 1
  else if f % 2 = 0 then f else f + 1

/-- Model of Python `round(x, 1)`. -/
def pyRound1 (x : ℚ) : ℚ := (pyRoundInt (x * 10) : ℚ) / 10

/-- One entry of the `relationships` list (data model of src/app.py). -/
structure Relationship where
  narrower_id : String
  broader_id : String
  narrower_name : String
  broader_name : String
  narrower_count : Int
  broader_count : Int
  cooc_count : Int
  p_broader_given_narrower : ℚ
  p_narrower_given_broader : ℚ
  asymmetry : ℚ
deriving DecidableEq

/-- The state of `CooccurrenceEngine` (src/app.py lines 28-33). -/
structure Engine where
  concept_names : List (String × String)
  concept_counts : List (String × Int)
  total_citations : Int
  relationships : List Relationship
  loadedFlag : Bool
deriving DecidableEq

/-! Model of `CooccurrenceEngine.get_filtered_relationships` (src/app.py lines 50-84). -/

/-- The processed text filter of `get_filtered_relationships`: line 55
computes `concept_filter.lower().strip() if concept_filter else None`, and
line 66 tests the result for truthiness before using it, so a missing,
empty, or whitespace-only filter imposes no text condition. -/
def normFilter (concept_filter : Option String) : Option String :=
  match concept_filter with
  | none => none
  | some s =>
    if s = "" then none
    else
      let t := pyStrip (pyLower s)
      if t = "" then none else some t

/-- The per-relationship tests of the filter loop (src/app.py lines 57-70). -/
def relPasses (min_narrower_count min_cooc : Int) (min_p_broader min_asymmetry : ℚ)
    (cfl : Option String) (r : Relationship) : Bool :=
  !decide (r.narrower_count < min_narrower_count) &&
  !decide (r.cooc_count < min_cooc) &&
  !decide (r.p_broader_given_narrower < min_p_broader) &&
  !decide (r.asymmetry < min_asymmetry) &&
  (match cfl with
   | none => true
   | some f => pyIn f (pyLower r.narrower_name) || pyIn f (pyLower r.broader_name))

/-- Ascending comparison of the sort key selected by `sort_by`
(src/app.py lines 72-82); name keys are compared lowercased. -/
def relKeyLE (sort_by : String) (a b : Relationship) : Bool :=
  if sort_by = "asymmetry" then decide (a.asymmetry ≤ b.asymmetry)
  else if sort_by = "p_broader_given_narrower" then
    decide (a.p_broader_given_narrower ≤ b.p_broader_given_narrower)
  else if sort_by = "cooc_count" then decide (a.cooc_count ≤ b.cooc_count)
  else if sort_by = "narrower_name" then
    pyStrLE (pyLower a.narrower_name) (pyLower b.narrower_name)
  else if sort_by = "broader_name" then
    pyStrLE (pyLower a.broader_name) (pyLower b.broader_name)
  else true

/-- The five recognized sort keys of src/app.py lines 73-82. -/
def sortFields : List String :=
  ["asymmetry", "p_broader_given_narrower", "cooc_count", "narrower_name", "broader_name"]

/-- The in-place sort of src/app.py lines 72-82: stable sort by the selected
key, descending when `sort_desc`; an unrecognized `sort_by` leaves the list
in filter order. -/
def sortResults (sort_by : String) (sort_desc : Bool) (l : List Relationship) : List Relationship :=
  if sort_by ∈ sortFields then
    if sort_desc then stableSort (fun a b => relKeyLE sort_by b a) l
    else stableSort (fun a b => relKeyLE sort_by a b) l
  else l

/-- The pre-truncation result list of `get_filtered_relationships`
(src/app.py lines 54-82): filter, then sort. -/
def preTruncation (e : Engine) (min_narrower_count min_cooc : Int)
    (min_p_broader min_asymmetry : ℚ) (concept_filter : Option String)
    (sort_by : String) (sort_desc : Bool) : List Relationship :=
  sortResults sort_by sort_desc
    (e.relationships.filter
      (relPasses min_narrower_count min_cooc min_p_broader min_asymmetry
        (normFilter concept_filter)))

/-- Model of `CooccurrenceEngine.get_filtered_relationships` (src/app.py lines 50-84):
returns `results[:limit]` and `len(results)`. -/
def get_filtered_relationships (e : Engine) (min_narrower_count min_cooc : Int)
    (min_p_broader min_asymmetry : ℚ) (concept_filter : Option String)
    (sort_by : String) (sort_desc : Bool) (limit : Int) : List Relationship × Nat :=
  let results := preTruncation e min_narrower_count min_cooc min_p_broader
    min_asymmetry concept_filter sort_by sort_desc
  (pySlice results limit, results.length)

/-! Model of `CooccurrenceEngine.load_precomputed` (src/app.py lines 35-48). -/

/-- Parsed top-level JSON document: each of the four required keys may be
absent.  Value shapes follow the data model of src/app.py. -/
structure RawDoc where
  concept_names : Option (List (String × String))
  concept_counts : Option (List (String × Int))
  total_citations : Option Int
  relationships : Option (List Relationship)
deriving DecidableEq

/-- Failure of `load_precomputed`: `readFailure` models `open`/`json.load`
raising (file missing, unreadable, or not valid JSON), `missingKey k` models
the `KeyError` raised by `data[k]` for an absent required key. -/
inductive LoadingError where
  | readFailure : LoadingError
  | missingKey : String → LoadingError
deriving DecidableEq

/-- Abstraction of the external world seen by `load_precomputed`: each path
either yields a parsed JSON document, or `none` when `open`/`json.load`
would raise (missing, unreadable, or malformed file — all of which abort the
call before any engine field is assigned). -/
def FileSystem : Type := String → Option RawDoc

/-- Model of `CooccurrenceEngine.load_precomputed` (src/app.py lines 35-48): returns
the engine state after the call together with the raised error, if any.
Field assignments happen one at a time (lines 41-44), so a missing later key
leaves the earlier assignments in place, exactly as in the source; the
`_loaded` flag (modelled as `loadedFlag`) is only set after all four
assignments succeed (line 45). -/
def load_precomputed (fs : FileSystem) (e : Engine) (path : String) :
    Engine × Option LoadingError :=
  if e.loadedFlag then (e, none)
  else
    match fs path with
    | none => (e, some .readFailure)
    | some data =>
      match data.concept_names with
      | none => (e, some (.missingKey "concept_names"))
      | some cn =>
        let e1 : Engine := { e with concept_names := cn }
        match data.concept_counts with
        | none => (e1, some (.missingKey "concept_counts"))
        | some cc =>
          let e2 : Engine := { e1 with concept_counts := cc }
          match data.total_citations with
          | none => (e2, some (.missingKey "total_citations"))
          | some tc =>
            let e3 : Engine := { e2 with total_citations := tc }
            match data.relationships with
            | none => (e3, some (.missingKey "relationships"))
            | some rels =>
              ({ e3 with relationships := rels, loadedFlag := true }, none)

/-! Model of `CooccurrenceEngine.get_concept_tree` (src/app.py lines 86-139). -/

/-- One suggestion entry (src/app.py line 100). -/
structure Suggestion where
  id : String
  name : String
  count : Int
deriving DecidableEq

/-- The two response shapes of `get_concept_tree`: the suggestions shape of
line 102 (whose broader/narrower/symmetric lists are empty) and the resolved
shape of lines 132-139. -/
inductive ConceptTreeResult where
  | suggestions (matchList : List Suggestion) : ConceptTreeResult
  | resolved (concept_id concept_name : String) (concept_count : Int)
      (broader narrower symmetric : List Relationship) : ConceptTreeResult
deriving DecidableEq

/-- The fallback branch of `get_concept_tree` (src/app.py lines 96-102):
substring-match every concept name against the processed query, sort the
matches by descending citation count, and return the first 20. -/
def suggestionsFor (e : Engine) (nl : String) : ConceptTreeResult :=
  let matchList := (e.concept_names.filter (fun p => pyIn nl (pyLower p.2))).map
    (fun p => Suggestion.mk p.1 p.2 (dictGetD e.concept_counts p.1 0))
  .suggestions ((stableSort (fun a b => decide (b.count ≤ a.count)) matchList).take 20)

/-- The resolved branch of `get_concept_tree` (src/app.py lines 104-139).
The first loop (lines 108-119) requires `cooc_count ≥ min_cooc` and
`narrower_count ≥ min_count`, then routes by which endpoint equals the
resolved id (`elif` makes the two cases exclusive); the second loop
(lines 121-126) collects the symmetric list with only the `min_cooc`
threshold, `asymmetry < min_asymmetry` and the fixed probability floor 1/5.
The name and count lookups of lines 134-135 are modelled with a default
(the name key is always present since the id was found in
`concept_names`). -/
def conceptTreeAt (e : Engine) (cid : String) (min_p_broader min_asymmetry : ℚ)
    (min_cooc min_count : Int) : ConceptTreeResult :=
  let broader := e.relationships.filter (fun r =>
    !decide (r.cooc_count < min_cooc) && !decide (r.narrower_count < min_count) &&
    (r.narrower_id == cid) &&
    decide (min_p_broader ≤ r.p_broader_given_narrower) &&
    decide (min_asymmetry ≤ r.asymmetry))
  let narrower := e.relationships.filter (fun r =>
    !decide (r.cooc_count < min_cooc) && !decide (r.narrower_count < min_count) &&
    !(r.narrower_id == cid) && (r.broader_id == cid) &&
    decide (min_p_broader ≤ r.p_broader_given_narrower) &&
    decide (min_asymmetry ≤ r.asymmetry))
  let symmetric := e.relationships.filter (fun r =>
    !decide (r.cooc_count < min_cooc) &&
    (r.narrower_id == cid || r.broader_id == cid) &&
    decide (r.asymmetry < min_asymmetry) &&
    decide (mkRat 1 5 ≤ r.p_broader_given_narrower))
  .resolved cid (dictGetD e.concept_names cid "") (dictGetD e.concept_counts cid 0)
    ((stableSort (fun a b =>
        decide (b.p_broader_given_narrower ≤ a.p_broader_given_narrower)) broader).take 50)
    ((stableSort (fun a b =>
        decide (b.p_broader_given_narrower ≤ a.p_broader_given_narrower)) narrower).take 50)
    ((stableSort (fun a b => decide (b.cooc_count ≤ a.cooc_count)) symmetric).take 30)

/-- Model of `CooccurrenceEngine.get_concept_tree` (src/app.py lines 86-139): resolve
the query by case-insensitive exact name match (first match in table order,
lines 90-94); Python's `if not concept_id:` treats both `None` and an empty
id string as unresolved. -/
def get_concept_tree (e : Engine) (concept_name : String)
    (min_p_broader min_asymmetry : ℚ) (min_cooc min_count : Int) : ConceptTreeResult :=
  let nl := pyStrip (pyLower concept_name)
  match (e.concept_names.find? (fun p => pyLower p.2 == nl)).map Prod.fst with
  | none => suggestionsFor e nl
  | some cid =>
    if cid = "" then suggestionsFor e nl
    else conceptTreeAt e cid min_p_broader min_asymmetry min_cooc min_count

/-- The `/api/concept_tree` route (src/app.py lines 243-256): the guard
`if not concept:` rejects only the exactly-empty string. -/
def api_concept_tree (e : Engine) (concept : String)
    (min_p_broader min_asymmetry : ℚ) (min_cooc min_count : Int) :
    Except String ConceptTreeResult :=
  if concept = "" then .error "No concept specified"
  else .ok (get_concept_tree e concept min_p_broader min_asymmetry min_cooc min_count)

/-! Model of `CooccurrenceEngine.build_hierarchy_tree` (src/app.py lines 150-201). -/

/-- The admission rule for a relationship to become a tree edge
(src/app.py lines 156-159). -/
def admitted (min_p_broader min_asymmetry : ℚ) (min_cooc min_count : Int)
    (r : Relationship) : Bool :=
  decide (min_p_broader ≤ r.p_broader_given_narrower) &&
  decide (min_asymmetry ≤ r.asymmetry) &&
  decide (min_cooc ≤ r.cooc_count) &&
  decide (min_count ≤ r.narrower_count)

/-- A `children_of` entry (src/app.py lines 160-166). -/
structure ChildEntry where
  id : String
  name : String
  count : Int
  p : ℚ
  asymmetry : ℚ
deriving DecidableEq

/-- The admitted relationships, in stored order. -/
def admittedRels (e : Engine) (min_p_broader min_asymmetry : ℚ)
    (min_cooc min_count : Int) : List Relationship :=
  e.relationships.filter (admitted min_p_broader min_asymmetry min_cooc min_count)

/-- Value of `children_of[bid]` after the build and per-parent sort of src/app.py
lines 152-170: the admitted children of `bid` in stored order, stably sorted
by descending `p`.  An id with no admitted children maps to `[]`
(`children_of.get(node_id, [])`, line 190). -/
def children_of (e : Engine) (min_p_broader min_asymmetry : ℚ)
    (min_cooc min_count : Int) (bid : String) : List ChildEntry :=
  stableSort (fun a b => decide (b.p ≤ a.p))
    (((admittedRels e min_p_broader min_asymmetry min_cooc min_count).filter
        (fun r => r.broader_id == bid)).map
      (fun r => ChildEntry.mk r.narrower_id r.narrower_name r.narrower_count
        r.p_broader_given_narrower r.asymmetry))

/-- Membership in the `has_parent` set (src/app.py lines 153, 167). -/
def has_parent (e : Engine) (min_p_broader min_asymmetry : ℚ)
    (min_cooc min_count : Int) (cid : String) : Bool :=
  (admittedRels e min_p_broader min_asymmetry min_cooc min_count).any
    (fun r => r.narrower_id == cid)

/-- A root record (src/app.py lines 172-179): name and count are read by
direct dict indexing in the source; the lookups are modelled with a
default, which is only reachable when the concept tables are missing the
root id (where the source would raise instead of returning a forest). -/
structure RootEntry where
  id : String
  name : String
  count : Int
deriving DecidableEq

/-- The root list of src/app.py lines 172-181: parents (keys of
`children_of`, in insertion order, i.e. order of first appearance as an
admitted broader endpoint) that never occur as an admitted narrower
endpoint, stably sorted by descending citation count. -/
def hierarchyRoots (e : Engine) (min_p_broader min_asymmetry : ℚ)
    (min_cooc min_count : Int) : List RootEntry :=
  stableSort (fun a b => decide (b.count ≤ a.count))
    (((dedupFirst ((admittedRels e min_p_broader min_asymmetry min_cooc min_count).map
          (fun r => r.broader_id))).filter
        (fun pid => !has_parent e min_p_broader min_asymmetry min_cooc min_count pid)).map
      (fun pid => RootEntry.mk pid (dictGetD e.concept_names pid "")
        (dictGetD e.concept_counts pid 0)))

/-- A node of the output forest: id, name, count, the admitting edge's
probability and asymmetry (`none` on root nodes, which carry no such keys),
and the child list. -/
inductive TreeNode where
  | node (id name : String) (count : Int) (p asymmetry : Option ℚ)
      (children : List TreeNode) : TreeNode

/-- The id of a tree node. -/
def TreeNode.ident : TreeNode → String
  | .node i _ _ _ _ _ => i

/-- The children of a tree node. -/
def TreeNode.children : TreeNode → List TreeNode
  | .node _ _ _ _ _ c => c

/-- Model of `build_subtree` (src/app.py lines 183-193), with an explicit fuel
argument to make the recursion structural.  The source recurses with
`depth + 1` and returns `[]` as soon as `node_id in visited or depth > 5`,
so from the top-level call (`depth = 0`) the recursion depth never exceeds
7 calls; any fuel above the remaining depth budget gives the same result
(see `build_subtree_fuel_congr`).  Every child is appended to the result
unconditionally (line 192); the visited check only empties the child's own
subtree.  The visited set is copied per branch (line 191), modelled by the
persistent list `node_id :: visited`. -/
def build_subtree (co : String → List ChildEntry) :
    Nat → String → Nat → List String → List TreeNode
  | 0, _, _, _ => []
  | fuel + 1, node_id, depth, visited =>
    if node_id ∈ visited || depth > 5 then []
    else
      (co node_id).map (fun c =>
        TreeNode.node c.id c.name c.count (some c.p) (some c.asymmetry)
          (build_subtree co fuel c.id (depth + 1) (node_id :: visited)))

/-- Model of `CooccurrenceEngine.build_hierarchy_tree` (src/app.py lines 150-201):
for each root, materialize its subtree from depth 0 with an empty visited
set, and drop roots whose subtree comes back empty (lines 195-199). -/
def build_hierarchy_tree (e : Engine) (min_p_broader min_asymmetry : ℚ)
    (min_cooc min_count : Int) : List TreeNode :=
  let co := children_of e min_p_broader min_asymmetry min_cooc min_count
  (hierarchyRoots e min_p_broader min_asymmetry min_cooc min_count).filterMap
    (fun root =>
      let subtree := build_subtree co 7 root.id 0 []
      if subtree.isEmpty then none
      else some (TreeNode.node root.id root.name root.count none none subtree))

/-- Root-to-leaf paths of a forest, as lists of concept ids:
`LeafPath f p` holds when `p` follows child links from some tree of `f`
down to a node with no children. -/
inductive LeafPath : List TreeNode → List String → Prop where
  | leaf {f : List TreeNode} {t : TreeNode} (ht : t ∈ f)
      (hc : t.children = []) : LeafPath f [t.ident]
  | cons {f : List TreeNode} {t : TreeNode} {p : List String} (ht : t ∈ f)
      (hp : LeafPath t.children p) : LeafPath f (t.ident :: p)

/-! The `/api/export_yaml` route (src/app.py lines 277-317). -/

/-- The filtered page used by the export (src/app.py lines 284-292):
`get_filtered_relationships` with no text filter, sorted ascending by
broader name, limit 5000. -/
def export_yaml_results (e : Engine) (min_p min_asym : ℚ)
    (min_cooc min_count : Int) : List Relationship :=
  (get_filtered_relationships e min_count min_cooc min_p min_asym none
    "broader_name" false 5000).1

/-- The group blocks of the export (src/app.py lines 294-315): one block per
broader display name occurring in the page (`defaultdict` grouping keeps
page order within a group), blocks iterated over `sorted(groups.keys())`,
and each group's member list stably sorted by descending
`p_broader_given_narrower`. -/
def export_yaml_groups (e : Engine) (min_p min_asym : ℚ)
    (min_cooc min_count : Int) : List (String × List Relationship) :=
  let results := export_yaml_results e min_p min_asym min_cooc min_count
  (stableSort (fun a b => pyStrLE a b)
      (dedupFirst (results.map (fun r => r.broader_name)))).map
    (fun k => (k, stableSort (fun a b =>
        decide (b.p_broader_given_narrower ≤ a.p_broader_given_narrower))
      (results.filter (fun r => r.broader_name == k))))

/-- The member lines of each emitted block (src/app.py lines 312-314): each
narrower member annotated with `round(p * 100, 1)`. -/
def export_yaml_entries (e : Engine) (min_p min_asym : ℚ)
    (min_cooc min_count : Int) : List (String × List (String × ℚ)) :=
  (export_yaml_groups e min_p min_asym min_cooc min_count).map
    (fun g => (g.1, g.2.map (fun r =>
      (r.narrower_name, pyRound1 (r.p_broader_given_narrower * 100)))))

/-! Helper lemmas about the modelling primitives. -/

theorem stableSort_perm {α : Type} (le : α → α → Bool) (l : List α) :
    List.Perm (stableSort le l) l :=
  List.perm_insertionSort _ l

theorem mem_stableSort {α : Type} {le : α → α → Bool} {l : List α} {a : α} :
    a ∈ stableSort le l ↔ a ∈ l :=
  List.mem_insertionSort _

theorem length_stableSort {α : Type} (le : α → α → Bool) (l : List α) :
    (stableSort le l).length = l.length :=
  (stableSort_perm le l).length_eq

theorem stableSort_pairwise {α : Type} {le : α → α → Bool}
    (htot : ∀ a b, le a b = true ∨ le b a = true)
    (htrans : ∀ a b c, le a b = true → le b c = true → le a c = true)
    (l : List α) : (stableSort le l).Pairwise (fun a b => le a b = true) := by
  haveI : IsTotal α (fun a b => le a b = true) := ⟨htot⟩
  haveI : IsTrans α (fun a b => le a b = true) := ⟨htrans⟩
  exact List.sorted_insertionSort _ l

theorem stableSort_filter_eq {α : Type} {le : α → α → Bool} (p : α → Bool)
    (hp : ∀ a b, p a = true → p b = true → le a b = true) (l : List α) :
    (stableSort le l).filter p = l.filter p := by
  have hpair : (l.filter p).Pairwise (fun a b => le a b = true) :=
    List.pairwise_of_forall_mem_list (fun a ha b hb =>
      hp a b (List.of_mem_filter ha) (List.of_mem_filter hb))
  have hsub : List.Sublist ((l.filter p).filter p) ((stableSort le l).filter p) :=
    List.Sublist.filter p (List.sublist_insertionSort hpair (List.filter_sublist l))
  have heq : (l.filter p).filter p = l.filter p := by
    simp [List.filter_filter]
  rw [heq] at hsub
  have hlen : (l.filter p).length = ((stableSort le l).filter p).length :=
    (((stableSort_perm le l).filter p).length_eq).symm
  exact (hsub.eq_of_length hlen).symm

theorem stableSort_nodup {α : Type} {le : α → α → Bool} {l : List α}
    (h : l.Nodup) : (stableSort le l).Nodup :=
  ((stableSort_perm le l).nodup_iff).mpr h

theorem listContainsSub_nil (l : List Char) : listContainsSub [] l = true := by
  cases l <;> simp [listContainsSub, List.isPrefixOf]

theorem pyIn_empty (s : String) : pyIn "" s = true :=
  listContainsSub_nil s.data

theorem listLexLE_total : ∀ a b : List Char, listLexLE a b = true ∨ listLexLE b a = true
  | [], _ => Or.inl rfl
  | _ :: _, [] => Or.inr rfl
  | a :: as, b :: bs => by
    rcases lt_trichotomy a b with h | h | h
    · left; simp [listLexLE, h]
    · subst h
      rcases listLexLE_total as bs with ih | ih
      · left; simp [listLexLE, ih]
      · right; simp [listLexLE, ih]
    · right; simp [listLexLE, h]

theorem listLexLE_trans :
    ∀ a b c : List Char, listLexLE a b = true → listLexLE b c = true →
      listLexLE a c = true
  | [], _, _ => by intro _ _; rfl
  | _ :: _, [], _ => by intro h _; simp [listLexLE] at h
  | _ :: _, _ :: _, [] => by intro _ h; simp [listLexLE] at h
  | a :: as, b :: bs, c :: cs => by
    intro h1 h2
    simp only [listLexLE, Bool.or_eq_true, decide_eq_true_eq, Bool.and_eq_true,
      beq_iff_eq] at h1 h2 ⊢
    rcases h1 with h1 | ⟨rfl, h1⟩
    · rcases h2 with h2 | ⟨rfl, _⟩
      · exact Or.inl (lt_trans h1 h2)
      · exact Or.inl h1
    · rcases h2 with h2 | ⟨rfl, h2⟩
      · exact Or.inl h2
      · exact Or.inr ⟨rfl, listLexLE_trans as bs cs h1 h2⟩

theorem pyStrLE_total (a b : String) : pyStrLE a b = true ∨ pyStrLE b a = true :=
  listLexLE_total a.data b.data

theorem pyStrLE_trans {a b c : String} (h1 : pyStrLE a b = true)
    (h2 : pyStrLE b c = true) : pyStrLE a c = true :=
  listLexLE_trans a.data b.data c.data h1 h2

theorem relKeyLE_total (sort_by : String) (a b : Relationship) :
    relKeyLE sort_by a b = true ∨ relKeyLE sort_by b a = true := by
  unfold relKeyLE
  split_ifs
  · simpa [decide_eq_true_eq] using le_total a.asymmetry b.asymmetry
  · simpa [decide_eq_true_eq] using
      le_total a.p_broader_given_narrower b.p_broader_given_narrower
  · simpa [decide_eq_true_eq] using le_total a.cooc_count b.cooc_count
  · exact pyStrLE_total _ _
  · exact pyStrLE_total _ _
  · exact Or.inl rfl

theorem relKeyLE_trans (sort_by : String) (a b c : Relationship)
    (h1 : relKeyLE sort_by a b = true) (h2 : relKeyLE sort_by b c = true) :
    relKeyLE sort_by a c = true := by
  unfold relKeyLE at h1 h2 ⊢
  split_ifs at h1 h2 ⊢
  · simp only [decide_eq_true_eq] at h1 h2 ⊢; exact le_trans h1 h2
  · simp only [decide_eq_true_eq] at h1 h2 ⊢; exact le_trans h1 h2
  · simp only [decide_eq_true_eq] at h1 h2 ⊢; exact le_trans h1 h2
  · exact pyStrLE_trans h1 h2
  · exact pyStrLE_trans h1 h2
  · rfl

theorem mem_sortResults {sort_by : String} {sort_desc : Bool}
    {l : List Relationship} {a : Relationship} :
    a ∈ sortResults sort_by sort_desc l ↔ a ∈ l := by
  unfold sortResults
  split
  · split
    · exact mem_stableSort
    · exact mem_stableSort
  · exact Iff.rfl

theorem length_sortResults (sort_by : String) (sort_desc : Bool)
    (l : List Relationship) : (sortResults sort_by sort_desc l).length = l.length := by
  unfold sortResults
  split
  · split
    · exact length_stableSort _ _
    · exact length_stableSort _ _
  · rfl

theorem sortResults_perm (sort_by : String) (sort_desc : Bool)
    (l : List Relationship) : List.Perm (sortResults sort_by sort_desc l) l := by
  unfold sortResults
  split
  · split
    · exact stableSort_perm _ _
    · exact stableSort_perm _ _
  · exact List.Perm.refl _

theorem dedupFirst_go (l : List String) :
    ∀ acc : List String,
      (∀ x, x ∈ l.foldl (fun acc x => if x ∈ acc then acc else acc ++ [x]) acc ↔
        x ∈ acc ∨ x ∈ l) ∧
      (acc.Nodup →
        (l.foldl (fun acc x => if x ∈ acc then acc else acc ++ [x]) acc).Nodup) := by
  induction l with
  | nil => intro acc; simp
  | cons y l ih =>
    intro acc
    constructor
    · intro x
      rw [List.foldl_cons]
      by_cases hy : y ∈ acc
      · rw [if_pos hy, (ih acc).1 x, List.mem_cons]
        constructor
        · rintro (h | h)
          · exact Or.inl h
          · exact Or.inr (Or.inr h)
        · rintro (h | rfl | h)
          · exact Or.inl h
          · exact Or.inl hy
          · exact Or.inr h
      · rw [if_neg hy, (ih (acc ++ [y])).1 x]
        simp only [List.mem_append, List.mem_singleton, List.mem_cons]
        tauto
    · intro hacc
      rw [List.foldl_cons]
      by_cases hy : y ∈ acc
      · rw [if_pos hy]
        exact (ih acc).2 hacc
      · rw [if_neg hy]
        refine (ih (acc ++ [y])).2 ?_
        rw [List.nodup_append]
        refine ⟨hacc, List.nodup_singleton y, ?_⟩
        intro a ha hay
        rw [List.mem_singleton] at hay
        exact hy (hay ▸ ha)

theorem mem_dedupFirst {l : List String} {x : String} :
    x ∈ dedupFirst l ↔ x ∈ l := by
  unfold dedupFirst
  rw [(dedupFirst_go l []).1 x]
  simp

theorem nodup_dedupFirst (l : List String) : (dedupFirst l).Nodup :=
  (dedupFirst_go l []).2 List.nodup_nil

theorem pySlice_sublist {α : Type} (l : List α) (k : Int) :
    List.Sublist (pySlice l k) l := by
  unfold pySlice
  split_ifs <;> exact List.take_sublist _ _

theorem pySlice_length_of_nonneg {α : Type} (l : List α) {k : Int} (hk : 0 ≤ k) :
    (pySlice l k).length = min k.toNat l.length := by
  unfold pySlice
  rw [if_pos hk, List.length_take]

/-! Lemmas about the forest traversal. -/

theorem leafPath_nil {p : List String} (h : LeafPath [] p) : False := by
  cases h with
  | leaf ht _ => exact absurd ht (List.not_mem_nil _)
  | cons ht _ => exact absurd ht (List.not_mem_nil _)

theorem leafPath_ne_nil {f : List TreeNode} {p : List String}
    (h : LeafPath f p) : p ≠ [] := by
  cases h <;> simp

theorem build_subtree_zero (co : String → List ChildEntry) (nid : String)
    (depth : Nat) (visited : List String) :
    build_subtree co 0 nid depth visited = [] := rfl

theorem build_subtree_succ (co : String → List ChildEntry) (fuel : Nat)
    (nid : String) (depth : Nat) (visited : List String) :
    build_subtree co (fuel + 1) nid depth visited =
      if nid ∈ visited || depth > 5 then []
      else
        (co nid).map (fun c =>
          TreeNode.node c.id c.name c.count (some c.p) (some c.asymmetry)
            (build_subtree co fuel c.id (depth + 1) (nid :: visited))) := rfl

theorem build_subtree_guard (co : String → List ChildEntry) (fuel : Nat)
    (nid : String) (depth : Nat) (visited : List String)
    (h : nid ∈ visited ∨ depth > 5) :
    build_subtree co fuel nid depth visited = [] := by
  cases fuel with
  | zero => rfl
  | succ fuel =>
    rw [build_subtree_succ]
    rw [if_pos]
    simpa using h

theorem build_subtree_fuel_congr (co : String → List ChildEntry) :
    ∀ f1 f2 nid depth visited, 6 - depth < f1 → 6 - depth < f2 →
      build_subtree co f1 nid depth visited = build_subtree co f2 nid depth visited := by
  intro f1
  induction f1 with
  | zero => intro f2 nid depth visited h1 _; exact absurd h1 (by omega)
  | succ f1 ih =>
    intro f2 nid depth visited h1 h2
    cases f2 with
    | zero => exact absurd h2 (by omega)
    | succ f2 =>
      rw [build_subtree_succ, build_subtree_succ]
      by_cases hcond : (decide (nid ∈ visited) || decide (depth > 5)) = true
      · rw [if_pos hcond, if_pos hcond]
      · rw [if_neg hcond, if_neg hcond]
        have hd : depth ≤ 5 := by
          rcases Bool.or_eq_false_iff.mp (Bool.not_eq_true _ ▸ hcond) with ⟨_, h⟩
          simpa using of_decide_eq_false h
        refine List.map_congr_left (fun c _ => ?_)
        rw [ih f2 c.id (depth + 1) (nid :: visited) (by omega) (by omega)]

theorem build_subtree_path_inv (co : String → List ChildEntry) :
    ∀ (fuel : Nat) (nid : String) (depth : Nat) (visited : List String)
      (p : List String),
      LeafPath (build_subtree co fuel nid depth visited) p →
      p.dropLast.Nodup ∧ ∀ x ∈ p.dropLast, x ∉ nid :: visited := by
  intro fuel
  induction fuel with
  | zero => intro nid depth visited p h; exact absurd h (by rw [build_subtree_zero] at h ⊢; exact fun _ => leafPath_nil h)
  | succ fuel ih =>
    intro nid depth visited p h
    rw [build_subtree_succ] at h
    by_cases hcond : (decide (nid ∈ visited) || decide (depth > 5)) = true
    · rw [if_pos hcond] at h
      exact absurd h leafPath_nil
    · rw [if_neg hcond] at h
      cases h with
      | leaf ht hc =>
        refine ⟨by simp, ?_⟩
        intro x hx
        simp at hx
      | cons ht hp =>
        rcases List.mem_map.mp ht with ⟨c, _, rfl⟩
        have hchildren : (TreeNode.node c.id c.name c.count (some c.p)
            (some c.asymmetry)
            (build_subtree co fuel c.id (depth + 1) (nid :: visited))).children =
            build_subtree co fuel c.id (depth + 1) (nid :: visited) := rfl
        rw [hchildren] at hp
        have hrec := ih c.id (depth + 1) (nid :: visited) _ hp
        have hcnot : c.id ∉ nid :: visited := by
          intro hin
          rw [build_subtree_guard co fuel c.id (depth + 1) (nid :: visited)
            (Or.inl hin)] at hp
          exact leafPath_nil hp
        have hne := leafPath_ne_nil hp
        show ((TreeNode.node c.id c.name c.count (some c.p) (some c.asymmetry)
          _).ident :: _).dropLast.Nodup ∧ _
        rw [show (TreeNode.node c.id c.name c.count (some c.p) (some c.asymmetry)
          (build_subtree co fuel c.id (depth + 1) (nid :: visited))).ident = c.id
          from rfl]
        rw [List.dropLast_cons_of_ne_nil hne]
        constructor
        · refine List.nodup_cons.mpr ⟨fun hx => ?_, hrec.1⟩
          exact (hrec.2 _ hx) (List.mem_cons_self _ _)
        · intro x hx
          rcases List.mem_cons.mp hx with rfl | hx2
          · exact hcnot
          · intro hmem
            exact (hrec.2 x hx2) (List.mem_cons_of_mem _ hmem)

theorem build_subtree_path_length (co : String → List ChildEntry) :
    ∀ (fuel : Nat) (nid : String) (depth : Nat) (visited : List String)
      (p : List String),
      LeafPath (build_subtree co fuel nid depth visited) p →
      p.length ≤ 6 - depth := by
  intro fuel
  induction fuel with
  | zero =>
    intro nid depth visited p h
    rw [build_subtree_zero] at h
    exact absurd h leafPath_nil
  | succ fuel ih =>
    intro nid depth visited p h
    rw [build_subtree_succ] at h
    by_cases hcond : (decide (nid ∈ visited) || decide (depth > 5)) = true
    · rw [if_pos hcond] at h
      exact absurd h leafPath_nil
    · rw [if_neg hcond] at h
      have hd : depth ≤ 5 := by
        rcases Bool.or_eq_false_iff.mp (Bool.not_eq_true _ ▸ hcond) with ⟨_, h5⟩
        simpa using of_decide_eq_false h5
      cases h with
      | leaf ht hc =>
        simp only [List.length_singleton]
        omega
      | cons ht hp =>
        rcases List.mem_map.mp ht with ⟨c, _, rfl⟩
        have hchildren : (TreeNode.node c.id c.name c.count (some c.p)
            (some c.asymmetry)
            (build_subtree co fuel c.id (depth + 1) (nid :: visited))).children =
            build_subtree co fuel c.id (depth + 1) (nid :: visited) := rfl
        rw [hchildren] at hp
        have hrec := ih c.id (depth + 1) (nid :: visited) _ hp
        have hpos : 0 < (List.length _) := List.length_pos.mpr (leafPath_ne_nil hp)
        simp only [List.length_cons]
        omega

/-! String lemmas used for the whitespace-query claim. -/

theorem toLower_of_isWhitespace {c : Char} (h : c.isWhitespace = true) :
    c.toLower = c := by
  rcases Bool.or_eq_true _ _ |>.mp h with h1 | h4
  · rcases Bool.or_eq_true _ _ |>.mp h1 with h2 | h3
    · rcases Bool.or_eq_true _ _ |>.mp h2 with h5 | h6
      · rw [decide_eq_true_eq.mp h5]; decide
      · rw [decide_eq_true_eq.mp h6]; decide
    · rw [decide_eq_true_eq.mp h3]; decide
  · rw [decide_eq_true_eq.mp h4]; decide

theorem pyStrip_pyLower_whitespace (s : String)
    (h : ∀ c ∈ s.data, c.isWhitespace = true) : pyStrip (pyLower s) = "" := by
  have hws : ∀ c ∈ (pyLower s).data, c.isWhitespace = true := by
    intro c hc
    rcases List.mem_map.mp hc with ⟨d, hd, rfl⟩
    rw [toLower_of_isWhitespace (h d hd)]
    exact h d hd
  have hdrop : (pyLower s).data.dropWhile Char.isWhitespace = [] :=
    List.dropWhile_eq_nil_iff.mpr hws
  unfold pyStrip
  rw [hdrop]
  rfl

theorem pyLower_eq_empty_iff {s : String} : pyLower s = "" ↔ s = "" := by
  constructor
  · intro h
    have hdata : (pyLower s).data = [] := by rw [h]
    have hnil : s.data = [] := List.map_eq_nil_iff.mp hdata
    exact String.ext hnil
  · intro h; rw [h]; rfl

/-! Concrete data used by witnesses and counterexamples. -/

/-- A relationship record with the given endpoints and narrower count, and
fixed statistics that pass the default thresholds. -/
def sampleRel (nid bid : String) (ncount : Int) : Relationship :=
  { narrower_id := nid, broader_id := bid, narrower_name := nid, broader_name := bid,
    narrower_count := ncount, broader_count := 100, cooc_count := 20,
    p_broader_given_narrower := 1, p_narrower_given_broader := 0, asymmetry := 3 }

/-- An engine whose admitted-edge graph is `R → A → B → A`: every edge is
admitted at the thresholds used below, and `A → B → A` is a directed
cycle. -/
def cycleEngine : Engine :=
  { concept_names := [("R", "R"), ("A", "A"), ("B", "B")],
    concept_counts := [("R", 100), ("A", 50), ("B", 40)],
    total_citations := 0,
    relationships := [sampleRel "A" "R" 50, sampleRel "B" "A" 40, sampleRel "A" "B" 50],
    loadedFlag := true }

/-- An engine whose admitted-edge graph is the chain
`R → c1 → c2 → c3 → c4 → c5 → c6`. -/
def chainEngine : Engine :=
  { concept_names := [("R", "R")],
    concept_counts := [("R", 100)],
    total_citations := 0,
    relationships := [sampleRel "c1" "R" 50, sampleRel "c2" "c1" 50,
      sampleRel "c3" "c2" 50, sampleRel "c4" "c3" 50, sampleRel "c5" "c4" 50,
      sampleRel "c6" "c5" 50],
    loadedFlag := true }

theorem cycleEngine_forest :
    build_hierarchy_tree cycleEngine (mkRat 1 2) 2 5 10 =
      [TreeNode.node "R" "R" 100 none none
        [TreeNode.node "A" "A" 50 (some 1) (some 3)
          [TreeNode.node "B" "B" 40 (some 1) (some 3)
            [TreeNode.node "A" "A" 50 (some 1) (some 3) []]]]] := rfl

theorem cycleEngine_leafPath :
    LeafPath (build_hierarchy_tree cycleEngine (mkRat 1 2) 2 5 10)
      ["R", "A", "B", "A"] := by
  rw [cycleEngine_forest]
  exact .cons (List.mem_singleton.mpr rfl)
    (.cons (List.mem_singleton.mpr rfl)
      (.cons (List.mem_singleton.mpr rfl)
        (.leaf (List.mem_singleton.mpr rfl) rfl)))

theorem chainEngine_forest :
    build_hierarchy_tree chainEngine (mkRat 1 2) 2 5 10 =
      [TreeNode.node "R" "R" 100 none none
        [TreeNode.node "c1" "c1" 50 (some 1) (some 3)
          [TreeNode.node "c2" "c2" 50 (some 1) (some 3)
            [TreeNode.node "c3" "c3" 50 (some 1) (some 3)
              [TreeNode.node "c4" "c4" 50 (some 1) (some 3)
                [TreeNode.node "c5" "c5" 50 (some 1) (some 3)
                  [TreeNode.node "c6" "c6" 50 (some 1) (some 3) []]]]]]]] := rfl

theorem chainEngine_leafPath :
    LeafPath (build_hierarchy_tree chainEngine (mkRat 1 2) 2 5 10)
      ["R", "c1", "c2", "c3", "c4", "c5", "c6"] := by
  rw [chainEngine_forest]
  exact .cons (List.mem_singleton.mpr rfl)
    (.cons (List.mem_singleton.mpr rfl)
      (.cons (List.mem_singleton.mpr rfl)
        (.cons (List.mem_singleton.mpr rfl)
          (.cons (List.mem_singleton.mpr rfl)
            (.cons (List.mem_singleton.mpr rfl)
              (.leaf (List.mem_singleton.mpr rfl) rfl))))))

/-- C2 (counterexample): with every edge of `R → A → B → A` admitted, the
forest returned by `build_hierarchy_tree` contains the root-to-leaf path
`R, A, B, A`, which repeats the concept ID `A`; so it is not the case that
no root-to-leaf path contains the same concept ID twice. -/
theorem hierarchy_cycle_path_repeats_id :
    ¬ ∀ p : List String,
      LeafPath (build_hierarchy_tree cycleEngine (mkRat 1 2) 2 5 10) p →
        p.Nodup := by
  intro hall
  have h := hall _ cycleEngine_leafPath
  exact absurd h (by decide)

/-- C2 (amended): for every threshold configuration, including admitted-edge
graphs with directed cycles, `build_hierarchy_tree` terminates (it is a total
function; `build_subtree_fuel_congr` shows the fuel plays no semantic role),
and on every root-to-leaf path of the returned forest all concept IDs except
possibly the final leaf are pairwise distinct: a revisited concept can appear
once more only as an unexpanded leaf. -/
theorem hierarchy_path_prefix_nodup (e : Engine) (min_p_broader min_asymmetry : ℚ)
    (min_cooc min_count : Int) (p : List String)
    (h : LeafPath (build_hierarchy_tree e min_p_broader min_asymmetry
      min_cooc min_count) p) : p.dropLast.Nodup := by
  cases h with
  | leaf ht hc => simp
  | cons ht hp =>
    rcases List.mem_filterMap.mp ht with ⟨root, _, hsome⟩
    by_cases hemp : (build_subtree
        (children_of e min_p_broader min_asymmetry min_cooc min_count) 7
        root.id 0 []).isEmpty
    · rw [if_pos hemp] at hsome
      exact absurd hsome (by simp)
    · rw [if_neg hemp] at hsome
      have ht2 := Option.some.inj hsome
      subst ht2
      have hchildren : (TreeNode.node root.id root.name root.count none none
          (build_subtree (children_of e min_p_broader min_asymmetry min_cooc
            min_count) 7 root.id 0 [])).children =
          build_subtree (children_of e min_p_broader min_asymmetry min_cooc
            min_count) 7 root.id 0 [] := rfl
      rw [hchildren] at hp
      have hinv := build_subtree_path_inv
        (children_of e min_p_broader min_asymmetry min_cooc min_count)
        7 root.id 0 [] _ hp
      have hne := leafPath_ne_nil hp
      show ((TreeNode.node root.id root.name root.count none none _).ident ::
        _).dropLast.Nodup
      rw [show (TreeNode.node root.id root.name root.count none none
        (build_subtree (children_of e min_p_broader min_asymmetry min_cooc
          min_count) 7 root.id 0 [])).ident = root.id from rfl]
      rw [List.dropLast_cons_of_ne_nil hne]
      refine List.nodup_cons.mpr ⟨fun hx => ?_, hinv.1⟩
      exact (hinv.2 _ hx) (List.mem_cons_self _ _)

/-- C2 (witness): on the cyclic engine the amended theorem applies to the
concrete path `R, A, B, A`, whose prefix `R, A, B` has no duplicates. -/
theorem hierarchy_path_prefix_nodup_witness :
    LeafPath (build_hierarchy_tree cycleEngine (mkRat 1 2) 2 5 10)
      ["R", "A", "B", "A"] ∧
    (["R", "A", "B", "A"] : List String).dropLast.Nodup :=
  ⟨cycleEngine_leafPath,
    hierarchy_path_prefix_nodup cycleEngine (mkRat 1 2) 2 5 10 _
      cycleEngine_leafPath⟩

/-- C3 (counterexample): with the admitted chain `R → c1 → ... → c6`, the
returned forest contains the root-to-leaf path `R, c1, ..., c6` of length 7,
i.e. the node `c6` sits at depth 6 from its root; so it is not the case that
every node lies at depth at most 5 (the guard `depth > 5` still emits
children at recursion depth 5, which are tree depth 6). -/
theorem hierarchy_depth_six_reachable :
    ¬ ∀ p : List String,
      LeafPath (build_hierarchy_tree chainEngine (mkRat 1 2) 2 5 10) p →
        p.length ≤ 6 := by
  intro hall
  have h := hall _ chainEngine_leafPath
  exact absurd h (by decide)

/-- C3 (amended): every node in the forest returned by
`build_hierarchy_tree` lies at depth at most 6 from its root (roots at
depth 0, depths 0..6 inclusive, i.e. at most 7 levels); equivalently every
root-to-leaf path has length at most 7.  No node ever appears at depth 7 or
deeper. -/
theorem hierarchy_path_length_le_seven (e : Engine)
    (min_p_broader min_asymmetry : ℚ) (min_cooc min_count : Int)
    (p : List String)
    (h : LeafPath (build_hierarchy_tree e min_p_broader min_asymmetry
      min_cooc min_count) p) : p.length ≤ 7 := by
  cases h with
  | leaf ht hc => simp
  | cons ht hp =>
    rcases List.mem_filterMap.mp ht with ⟨root, _, hsome⟩
    by_cases hemp : (build_subtree
        (children_of e min_p_broader min_asymmetry min_cooc min_count) 7
        root.id 0 []).isEmpty
    · rw [if_pos hemp] at hsome
      exact absurd hsome (by simp)
    · rw [if_neg hemp] at hsome
      have ht2 := Option.some.inj hsome
      subst ht2
      have hchildren : (TreeNode.node root.id root.name root.count none none
          (build_subtree (children_of e min_p_broader min_asymmetry min_cooc
            min_count) 7 root.id 0 [])).children =
          build_subtree (children_of e min_p_broader min_asymmetry min_cooc
            min_count) 7 root.id 0 [] := rfl
      rw [hchildren] at hp
      have hlen := build_subtree_path_length
        (children_of e min_p_broader min_asymmetry min_cooc min_count)
        7 root.id 0 [] _ hp
      simp only [List.length_cons]
      omega

/-- C3 (witness): the amended bound applied to the concrete length-7 path of
the chain engine. -/
theorem hierarchy_path_length_le_seven_witness :
    LeafPath (build_hierarchy_tree chainEngine (mkRat 1 2) 2 5 10)
      ["R", "c1", "c2", "c3", "c4", "c5", "c6"] ∧
    (["R", "c1", "c2", "c3", "c4", "c5", "c6"] : List String).length ≤ 7 :=
  ⟨chainEngine_leafPath,
    hierarchy_path_length_le_seven chainEngine (mkRat 1 2) 2 5 10 _
      chainEngine_leafPath⟩

/-- C1: a relationship of the loaded list is in the pre-truncation result
set of `get_filtered_relationships` iff its `narrower_count`, `cooc_count`,
`p_broader_given_narrower` and `asymmetry` each meet their threshold and,
whenever a non-empty text filter is supplied, the lowercased stripped filter
is a substring of the lowercased narrower name or of the lowercased broader
name. -/
theorem listRelationships_filter_conjunction (e : Engine)
    (min_narrower_count min_cooc : Int) (min_p_broader min_asymmetry : ℚ)
    (cf : Option String) (sort_by : String) (sort_desc : Bool)
    (r : Relationship) :
    r ∈ preTruncation e min_narrower_count min_cooc min_p_broader
      min_asymmetry cf sort_by sort_desc ↔
    (r ∈ e.relationships ∧
      min_narrower_count ≤ r.narrower_count ∧
      min_cooc ≤ r.cooc_count ∧
      min_p_broader ≤ r.p_broader_given_narrower ∧
      min_asymmetry ≤ r.asymmetry ∧
      ∀ s, cf = some s → s ≠ "" →
        (pyIn (pyStrip (pyLower s)) (pyLower r.narrower_name) = true ∨
         pyIn (pyStrip (pyLower s)) (pyLower r.broader_name) = true)) := by
  unfold preTruncation
  rw [mem_sortResults, List.mem_filter]
  unfold relPasses
  simp only [Bool.and_eq_true, Bool.not_eq_true', decide_eq_false_iff_not, not_lt]
  constructor
  · rintro ⟨hmem, ⟨⟨⟨⟨h1, h2⟩, h3⟩, h4⟩, h5⟩⟩
    refine ⟨hmem, h1, h2, h3, h4, ?_⟩
    rintro s rfl hs
    simp only [normFilter, if_neg hs] at h5
    by_cases ht : pyStrip (pyLower s) = ""
    · rw [ht]
      exact Or.inl (pyIn_empty _)
    · rw [if_neg ht] at h5
      exact (Bool.or_eq_true _ _).mp h5
  · rintro ⟨hmem, h1, h2, h3, h4, h5⟩
    refine ⟨hmem, ⟨⟨⟨⟨h1, h2⟩, h3⟩, h4⟩, ?_⟩⟩
    cases cf with
    | none => rfl
    | some s =>
      by_cases hs : s = ""
      · simp [normFilter, hs]
      · by_cases ht : pyStrip (pyLower s) = ""
        · simp [normFilter, if_neg hs, ht]
        · simp only [normFilter, if_neg hs, if_neg ht]
          exact (Bool.or_eq_true _ _).mpr (h5 s rfl hs)

/-- C4 (counterexample): with a negative limit, Python slicing makes the
page shorter than the full result (`results[:-1]` drops the last element),
so `len(page)` is not `min(total, limit)`: on an engine with three matching
relationships and `limit = -1`, the page has two elements while
`min(total, limit) = -1`. -/
theorem pagination_negative_limit_cex :
    ¬ (((get_filtered_relationships cycleEngine 10 5 1 2 none "asymmetry"
          true (-1)).1.length : Int) =
        min (((get_filtered_relationships cycleEngine 10 5 1 2 none
          "asymmetry" true (-1)).2 : Int)) (-1)) := by
  decide

/-- C4 (amended): the total returned by `get_filtered_relationships` always
equals the number of relationships satisfying the filter with no limit
applied; for every non-negative limit the length of the returned page
equals `min(total, limit)`, and for every negative limit it follows Python
slice semantics: `len(page) = max(0, total + limit)`. -/
theorem pagination_consistency (e : Engine)
    (min_narrower_count min_cooc : Int) (min_p_broader min_asymmetry : ℚ)
    (cf : Option String) (sort_by : String) (sort_desc : Bool) (limit : Int) :
    (get_filtered_relationships e min_narrower_count min_cooc min_p_broader
        min_asymmetry cf sort_by sort_desc limit).2 =
      (e.relationships.filter (relPasses min_narrower_count min_cooc
        min_p_broader min_asymmetry (normFilter cf))).length ∧
    (0 ≤ limit →
      ((get_filtered_relationships e min_narrower_count min_cooc min_p_broader
          min_asymmetry cf sort_by sort_desc limit).1.length : Int) =
        min ((e.relationships.filter (relPasses min_narrower_count min_cooc
          min_p_broader min_asymmetry (normFilter cf))).length : Int) limit) ∧
    (limit < 0 →
      ((get_filtered_relationships e min_narrower_count min_cooc min_p_broader
          min_asymmetry cf sort_by sort_desc limit).1.length : Int) =
        max 0 (((e.relationships.filter (relPasses min_narrower_count min_cooc
          min_p_broader min_asymmetry (normFilter cf))).length : Int) +
          limit)) := by
  have hsnd : (get_filtered_relationships e min_narrower_count min_cooc
      min_p_broader min_asymmetry cf sort_by sort_desc limit).2 =
      (preTruncation e min_narrower_count min_cooc min_p_broader min_asymmetry
        cf sort_by sort_desc).length := rfl
  have hfst : (get_filtered_relationships e min_narrower_count min_cooc
      min_p_broader min_asymmetry cf sort_by sort_desc limit).1 =
      pySlice (preTruncation e min_narrower_count min_cooc min_p_broader
        min_asymmetry cf sort_by sort_desc) limit := rfl
  have hlen : (preTruncation e min_narrower_count min_cooc min_p_broader
      min_asymmetry cf sort_by sort_desc).length =
      (e.relationships.filter (relPasses min_narrower_count min_cooc
        min_p_broader min_asymmetry (normFilter cf))).length := by
    unfold preTruncation
    exact length_sortResults _ _ _
  refine ⟨?_, ?_, ?_⟩
  · rw [hsnd, hlen]
  · intro hl
    rw [hfst, pySlice_length_of_nonneg _ hl, hlen]
    rw [Nat.cast_min, Int.toNat_of_nonneg hl, min_comm]
  · intro hl
    rw [hfst]
    unfold pySlice
    rw [if_neg (not_le.mpr hl), List.length_take, hlen]
    omega

/-- C4 (witness): the amended pagination property at a concrete engine with
three matching relationships, applied at limit 2 (non-negative branch) and
at limit -1 (negative branch: `max(0, 3 + (-1)) = 2`). -/
theorem pagination_consistency_witness :
    (get_filtered_relationships cycleEngine 10 5 1 2 none "asymmetry"
        true 2).2 =
      (cycleEngine.relationships.filter (relPasses 10 5 1 2
        (normFilter none))).length ∧
    ((get_filtered_relationships cycleEngine 10 5 1 2 none "asymmetry"
        true 2).1.length : Int) =
      min ((cycleEngine.relationships.filter (relPasses 10 5 1 2
        (normFilter none))).length : Int) 2 ∧
    ((get_filtered_relationships cycleEngine 10 5 1 2 none "asymmetry"
        true (-1)).1.length : Int) =
      max 0 (((cycleEngine.relationships.filter (relPasses 10 5 1 2
        (normFilter none))).length : Int) + (-1)) :=
  ⟨(pagination_consistency cycleEngine 10 5 1 2 none "asymmetry" true 2).1,
    (pagination_consistency cycleEngine 10 5 1 2 none "asymmetry" true
      2).2.1 (by decide),
    (pagination_consistency cycleEngine 10 5 1 2 none "asymmetry" true
      (-1)).2.2 (by decide)⟩

/-- C5: for every recognized sort field and either direction, the page
returned by `get_filtered_relationships` is totally ordered by that field's
key (name fields case-insensitively, numeric fields numerically; descending
when `sort_desc`), and any set of relationships with pairwise equal sort
keys appears in the page in the same relative order as in the stored
relationship list (stated as: the page restricted to any predicate that only
holds within one key-equivalence class is a sublist of the stored list
restricted to that predicate). -/
theorem sort_correct_and_stable (e : Engine)
    (min_narrower_count min_cooc : Int) (min_p_broader min_asymmetry : ℚ)
    (cf : Option String) (sort_by : String) (sort_desc : Bool) (limit : Int)
    (hs : sort_by ∈ sortFields) :
    ((get_filtered_relationships e min_narrower_count min_cooc min_p_broader
        min_asymmetry cf sort_by sort_desc limit).1.Pairwise
      (fun a b =>
        (if sort_desc then relKeyLE sort_by b a else relKeyLE sort_by a b) =
          true)) ∧
    (∀ pred : Relationship → Bool,
      (∀ a b, pred a = true → pred b = true → relKeyLE sort_by a b = true) →
      List.Sublist
        ((get_filtered_relationships e min_narrower_count min_cooc
          min_p_broader min_asymmetry cf sort_by sort_desc limit).1.filter
          pred)
        (e.relationships.filter pred)) := by
  have hfst : (get_filtered_relationships e min_narrower_count min_cooc
      min_p_broader min_asymmetry cf sort_by sort_desc limit).1 =
      pySlice (sortResults sort_by sort_desc (e.relationships.filter
        (relPasses min_narrower_count min_cooc min_p_broader min_asymmetry
          (normFilter cf)))) limit := rfl
  constructor
  · rw [hfst]
    have hsorted : (sortResults sort_by sort_desc (e.relationships.filter
        (relPasses min_narrower_count min_cooc min_p_broader min_asymmetry
          (normFilter cf)))).Pairwise
        (fun a b =>
          (if sort_desc then relKeyLE sort_by b a else relKeyLE sort_by a b) =
            true) := by
      unfold sortResults
      rw [if_pos hs]
      cases sort_desc
      · simp only [Bool.false_eq_true, if_false]
        exact stableSort_pairwise (relKeyLE_total sort_by)
          (relKeyLE_trans sort_by) _
      · simp only [if_true]
        exact stableSort_pairwise
          (fun a b => relKeyLE_total sort_by b a)
          (fun a b c h1 h2 => relKeyLE_trans sort_by c b a h2 h1) _
    exact List.Pairwise.sublist (pySlice_sublist _ _) hsorted
  · intro pred hpred
    have h2 : (sortResults sort_by sort_desc (e.relationships.filter
        (relPasses min_narrower_count min_cooc min_p_broader min_asymmetry
          (normFilter cf)))).filter pred =
        (e.relationships.filter (relPasses min_narrower_count min_cooc
          min_p_broader min_asymmetry (normFilter cf))).filter pred := by
      unfold sortResults
      rw [if_pos hs]
      cases sort_desc
      · simp only [Bool.false_eq_true, if_false]
        exact stableSort_filter_eq pred hpred _
      · simp only [if_true]
        exact stableSort_filter_eq pred (fun a b ha hb => hpred b a hb ha) _
    have h3 : List.Sublist
        (e.relationships.filter (relPasses min_narrower_count min_cooc
          min_p_broader min_asymmetry (normFilter cf))) e.relationships :=
      List.filter_sublist e.relationships
    have h5 := (pySlice_sublist (sortResults sort_by sort_desc
      (e.relationships.filter (relPasses min_narrower_count min_cooc
        min_p_broader min_asymmetry (normFilter cf)))) limit).filter pred
    rw [h2] at h5
    rw [hfst]
    exact h5.trans (h3.filter pred)

/-- C5 (witness): the sort property at a concrete engine, descending by
asymmetry. -/
theorem sort_correct_and_stable_witness :
    "asymmetry" ∈ sortFields ∧
    (((get_filtered_relationships cycleEngine 10 5 1 2 none "asymmetry"
        true 500).1.Pairwise
      (fun a b =>
        (if true then relKeyLE "asymmetry" b a else relKeyLE "asymmetry" a b) =
          true)) ∧
    (∀ pred : Relationship → Bool,
      (∀ a b, pred a = true → pred b = true → relKeyLE "asymmetry" a b = true) →
      List.Sublist
        ((get_filtered_relationships cycleEngine 10 5 1 2 none "asymmetry"
          true 500).1.filter pred)
        (cycleEngine.relationships.filter pred))) :=
  ⟨by decide,
    sort_correct_and_stable cycleEngine 10 5 1 2 none "asymmetry" true 500
      (by decide)⟩

/-- C6: when `get_concept_tree` resolves a concept, the broader, narrower
and symmetric lists of the result are pairwise disjoint — no relationship
is placed in more than one of the three lists — and every relationship in
any of the lists touches the resolved concept and has
`cooc_count ≥ min_cooc`. -/
theorem neighborhood_partition (e : Engine) (concept_name : String)
    (min_p_broader min_asymmetry : ℚ) (min_cooc min_count : Int)
    (cid cname : String) (ccount : Int) (B N S : List Relationship)
    (h : get_concept_tree e concept_name min_p_broader min_asymmetry
      min_cooc min_count = ConceptTreeResult.resolved cid cname ccount B N S) :
    (∀ r, ¬ (r ∈ B ∧ r ∈ N)) ∧ (∀ r, ¬ (r ∈ B ∧ r ∈ S)) ∧
    (∀ r, ¬ (r ∈ N ∧ r ∈ S)) ∧
    (∀ r, r ∈ B ∨ r ∈ N ∨ r ∈ S →
      (r.narrower_id = cid ∨ r.broader_id = cid) ∧ min_cooc ≤ r.cooc_count) := by
  simp only [get_concept_tree] at h
  rcases hf : (e.concept_names.find?
      (fun p => pyLower p.2 == pyStrip (pyLower concept_name))).map Prod.fst
    with _ | cid0
  · rw [hf] at h
    simp [suggestionsFor] at h
  · rw [hf] at h
    dsimp only at h
    by_cases hc0 : cid0 = ""
    · rw [if_pos hc0] at h
      simp [suggestionsFor] at h
    · rw [if_neg hc0] at h
      simp only [conceptTreeAt] at h
      injection h with e1 e2 e3 e4 e5 e6
      subst e1
      subst e4
      subst e5
      subst e6
      have hB : ∀ r, r ∈ ((stableSort (fun a b =>
          decide (b.p_broader_given_narrower ≤ a.p_broader_given_narrower))
          (e.relationships.filter (fun r =>
            !decide (r.cooc_count < min_cooc) &&
            !decide (r.narrower_count < min_count) &&
            (r.narrower_id == cid0) &&
            decide (min_p_broader ≤ r.p_broader_given_narrower) &&
            decide (min_asymmetry ≤ r.asymmetry)))).take 50) →
          (min_cooc ≤ r.cooc_count ∧ r.narrower_id = cid0 ∧
            min_asymmetry ≤ r.asymmetry) := by
        intro r hr
        have hmem := List.of_mem_filter (mem_stableSort.mp
          (List.mem_of_mem_take hr))
        simp only [Bool.and_eq_true, Bool.not_eq_true', decide_eq_false_iff_not,
          not_lt, decide_eq_true_eq, beq_iff_eq] at hmem
        exact ⟨hmem.1.1.1.1, hmem.1.1.2, hmem.2⟩
      have hN : ∀ r, r ∈ ((stableSort (fun a b =>
          decide (b.p_broader_given_narrower ≤ a.p_broader_given_narrower))
          (e.relationships.filter (fun r =>
            !decide (r.cooc_count < min_cooc) &&
            !decide (r.narrower_count < min_count) &&
            !(r.narrower_id == cid0) && (r.broader_id == cid0) &&
            decide (min_p_broader ≤ r.p_broader_given_narrower) &&
            decide (min_asymmetry ≤ r.asymmetry)))).take 50) →
          (min_cooc ≤ r.cooc_count ∧ r.narrower_id ≠ cid0 ∧
            r.broader_id = cid0 ∧ min_asymmetry ≤ r.asymmetry) := by
        intro r hr
        have hmem := List.of_mem_filter (mem_stableSort.mp
          (List.mem_of_mem_take hr))
        simp only [Bool.and_eq_true, Bool.not_eq_true', decide_eq_false_iff_not,
          not_lt, decide_eq_true_eq, beq_iff_eq, beq_eq_false_iff_ne] at hmem
        exact ⟨hmem.1.1.1.1.1, hmem.1.1.1.2, hmem.1.1.2, hmem.2⟩
      have hS : ∀ r, r ∈ ((stableSort (fun a b =>
          decide (b.cooc_count ≤ a.cooc_count))
          (e.relationships.filter (fun r =>
            !decide (r.cooc_count < min_cooc) &&
            (r.narrower_id == cid0 || r.broader_id == cid0) &&
            decide (r.asymmetry < min_asymmetry) &&
            decide (mkRat 1 5 ≤ r.p_broader_given_narrower)))).take 30) →
          (min_cooc ≤ r.cooc_count ∧
            (r.narrower_id = cid0 ∨ r.broader_id = cid0) ∧
            r.asymmetry < min_asymmetry) := by
        intro r hr
        have hmem := List.of_mem_filter (mem_stableSort.mp
          (List.mem_of_mem_take hr))
        simp only [Bool.and_eq_true, Bool.not_eq_true', decide_eq_false_iff_not,
          not_lt, decide_eq_true_eq, beq_iff_eq, Bool.or_eq_true] at hmem
        exact ⟨hmem.1.1.1, hmem.1.1.2, hmem.1.2⟩
      refine ⟨?_, ?_, ?_, ?_⟩
      · rintro r ⟨hrB, hrN⟩
        exact (hN r hrN).2.1 (hB r hrB).2.1
      · rintro r ⟨hrB, hrS⟩
        exact absurd (hB r hrB).2.2 (not_le.mpr (hS r hrS).2.2)
      · rintro r ⟨hrN, hrS⟩
        exact absurd (hN r hrN).2.2.2 (not_le.mpr (hS r hrS).2.2)
      · rintro r (hrB | hrN | hrS)
        · exact ⟨Or.inl (hB r hrB).2.1, (hB r hrB).1⟩
        · exact ⟨Or.inr (hN r hrN).2.2.1, (hN r hrN).1⟩
        · exact ⟨(hS r hrS).2.1, (hS r hrS).1⟩

/-- C6 (witness): the partition property at the cyclic engine, where the
query `A` resolves. -/
theorem neighborhood_partition_witness :
    get_concept_tree cycleEngine "A" 0 2 3 5 =
      ConceptTreeResult.resolved "A" "A" 50
        [sampleRel "A" "R" 50, sampleRel "A" "B" 50] [sampleRel "B" "A" 40]
        [] ∧
    ((∀ r, ¬ (r ∈ [sampleRel "A" "R" 50, sampleRel "A" "B" 50] ∧
        r ∈ [sampleRel "B" "A" 40])) ∧
      (∀ r, ¬ (r ∈ [sampleRel "A" "R" 50, sampleRel "A" "B" 50] ∧
        r ∈ ([] : List Relationship))) ∧
      (∀ r, ¬ (r ∈ [sampleRel "B" "A" 40] ∧ r ∈ ([] : List Relationship))) ∧
      (∀ r, r ∈ [sampleRel "A" "R" 50, sampleRel "A" "B" 50] ∨
          r ∈ [sampleRel "B" "A" 40] ∨ r ∈ ([] : List Relationship) →
        (r.narrower_id = "A" ∨ r.broader_id = "A") ∧ 3 ≤ r.cooc_count)) :=
  ⟨by decide,
    neighborhood_partition cycleEngine "A" 0 2 3 5 "A" "A" 50 _ _ _
      (by decide)⟩

/-- C7: loading is idempotent — after one successful `load_precomputed`
call, any later call with any file system and any path is a no-op that
returns the engine unchanged and raises nothing, and the engine's four data
fields are exactly the contents of the document read by the first successful
load. -/
theorem load_idempotent (fs : FileSystem) (e : Engine) (path : String)
    (h0 : e.loadedFlag = false)
    (h1 : (load_precomputed fs e path).2 = none) :
    (∀ (fs2 : FileSystem) (path2 : String),
      load_precomputed fs2 (load_precomputed fs e path).1 path2 =
        ((load_precomputed fs e path).1, none)) ∧
    (∃ d, fs path = some d ∧
      d.concept_names = some (load_precomputed fs e path).1.concept_names ∧
      d.concept_counts = some (load_precomputed fs e path).1.concept_counts ∧
      d.total_citations = some (load_precomputed fs e path).1.total_citations ∧
      d.relationships = some (load_precomputed fs e path).1.relationships) := by
  rcases hfs : fs path with _ | d
  · simp [load_precomputed, h0, hfs] at h1
  · rcases hcn : d.concept_names with _ | cn
    · simp [load_precomputed, h0, hfs, hcn] at h1
    · rcases hcc : d.concept_counts with _ | cc
      · simp [load_precomputed, h0, hfs, hcn, hcc] at h1
      · rcases htc : d.total_citations with _ | tc
        · simp [load_precomputed, h0, hfs, hcn, hcc, htc] at h1
        · rcases hrels : d.relationships with _ | rels
          · simp [load_precomputed, h0, hfs, hcn, hcc, htc, hrels] at h1
          · have hresult : load_precomputed fs e path =
                (Engine.mk cn cc tc rels true, none) := by
              simp [load_precomputed, h0, hfs, hcn, hcc, htc, hrels]
            constructor
            · intro fs2 path2
              rw [hresult]
              simp [load_precomputed]
            · refine ⟨d, rfl, ?_, ?_, ?_, ?_⟩ <;> rw [hresult]
              · exact hcn
              · exact hcc
              · exact htc
              · exact hrels

/-- C7 (witness): a concrete fresh engine, loaded once from a complete
document, then loaded again from a different file system and path. -/
theorem load_idempotent_witness :
    (Engine.mk [] [] 0 [] false).loadedFlag = false ∧
    (load_precomputed
      (fun _ => some (RawDoc.mk (some [("R", "R")]) (some [("R", 7)])
        (some 9) (some [])))
      (Engine.mk [] [] 0 [] false) "data.json").2 = none ∧
    ((∀ (fs2 : FileSystem) (path2 : String),
      load_precomputed fs2
        (load_precomputed
          (fun _ => some (RawDoc.mk (some [("R", "R")]) (some [("R", 7)])
            (some 9) (some [])))
          (Engine.mk [] [] 0 [] false) "data.json").1 path2 =
        ((load_precomputed
          (fun _ => some (RawDoc.mk (some [("R", "R")]) (some [("R", 7)])
            (some 9) (some [])))
          (Engine.mk [] [] 0 [] false) "data.json").1, none)) ∧
    (∃ d, (fun (_ : String) => some (RawDoc.mk (some [("R", "R")])
        (some [("R", 7)]) (some 9) (some []))) "data.json" = some d ∧
      d.concept_names = some (load_precomputed
        (fun _ => some (RawDoc.mk (some [("R", "R")]) (some [("R", 7)])
          (some 9) (some [])))
        (Engine.mk [] [] 0 [] false) "data.json").1.concept_names ∧
      d.concept_counts = some (load_precomputed
        (fun _ => some (RawDoc.mk (some [("R", "R")]) (some [("R", 7)])
          (some 9) (some [])))
        (Engine.mk [] [] 0 [] false) "data.json").1.concept_counts ∧
      d.total_citations = some (load_precomputed
        (fun _ => some (RawDoc.mk (some [("R", "R")]) (some [("R", 7)])
          (some 9) (some [])))
        (Engine.mk [] [] 0 [] false) "data.json").1.total_citations ∧
      d.relationships = some (load_precomputed
        (fun _ => some (RawDoc.mk (some [("R", "R")]) (some [("R", 7)])
          (some 9) (some [])))
        (Engine.mk [] [] 0 [] false) "data.json").1.relationships)) :=
  ⟨rfl, rfl,
    load_idempotent
      (fun _ => some (RawDoc.mk (some [("R", "R")]) (some [("R", 7)])
        (some 9) (some [])))
      (Engine.mk [] [] 0 [] false) "data.json" rfl rfl⟩

/-- C8: on a not-yet-loaded engine, `load_precomputed` raises exactly when
the file cannot be read and parsed (missing, unreadable, or not valid JSON —
the cases where the modelled file system yields nothing) or the parsed
document lacks one of the four required top-level keys; and whenever it
raises, the load is not marked successful. -/
theorem load_error_iff (fs : FileSystem) (e : Engine) (path : String)
    (h0 : e.loadedFlag = false) :
    ((load_precomputed fs e path).2 ≠ none ↔
      fs path = none ∨ ∃ d, fs path = some d ∧
        (d.concept_names = none ∨ d.concept_counts = none ∨
         d.total_citations = none ∨ d.relationships = none)) ∧
    ((load_precomputed fs e path).2 ≠ none →
      (load_precomputed fs e path).1.loadedFlag = false) := by
  rcases hfs : fs path with _ | d
  · constructor
    · simp [load_precomputed, h0, hfs]
    · intro _
      simp [load_precomputed, h0, hfs]
  · rcases hcn : d.concept_names with _ | cn
    · constructor
      · simp [load_precomputed, h0, hfs, hcn]
      · intro _
        simp [load_precomputed, h0, hfs, hcn]
    · rcases hcc : d.concept_counts with _ | cc
      · constructor
        · simp [load_precomputed, h0, hfs, hcn, hcc]
        · intro _
          simp [load_precomputed, h0, hfs, hcn, hcc]
      · rcases htc : d.total_citations with _ | tc
        · constructor
          · simp [load_precomputed, h0, hfs, hcn, hcc, htc]
          · intro _
            simp [load_precomputed, h0, hfs, hcn, hcc, htc]
        · rcases hrels : d.relationships with _ | rels
          · constructor
            · simp [load_precomputed, h0, hfs, hcn, hcc, htc, hrels]
            · intro _
              simp [load_precomputed, h0, hfs, hcn, hcc, htc, hrels]
          · constructor
            · simp [load_precomputed, h0, hfs, hcn, hcc, htc, hrels]
            · intro hcontra
              exfalso
              exact hcontra
                (by simp [load_precomputed, h0, hfs, hcn, hcc, htc, hrels])

/-- C8 (witness): a concrete fresh engine and a document missing the
`relationships` key: the load raises and the loaded flag stays unset. -/
theorem load_error_iff_witness :
    (Engine.mk [] [] 0 [] false).loadedFlag = false ∧
    (((load_precomputed
        (fun _ => some (RawDoc.mk (some []) (some []) (some 9) none))
        (Engine.mk [] [] 0 [] false) "x").2 ≠ none ↔
      (fun (_ : String) => some (RawDoc.mk (some []) (some []) (some 9)
        none)) "x" = none ∨
      ∃ d, (fun (_ : String) => some (RawDoc.mk (some []) (some [])
          (some 9) none)) "x" = some d ∧
        (d.concept_names = none ∨ d.concept_counts = none ∨
         d.total_citations = none ∨ d.relationships = none)) ∧
    ((load_precomputed
        (fun _ => some (RawDoc.mk (some []) (some []) (some 9) none))
        (Engine.mk [] [] 0 [] false) "x").2 ≠ none →
      (load_precomputed
        (fun _ => some (RawDoc.mk (some []) (some []) (some 9) none))
        (Engine.mk [] [] 0 [] false) "x").1.loadedFlag = false)) :=
  ⟨rfl,
    load_error_iff
      (fun _ => some (RawDoc.mk (some []) (some []) (some 9) none))
      (Engine.mk [] [] 0 [] false) "x" rfl⟩

/-- C9: the text export groups the exported page by broader display name —
the group keys are exactly the broader names occurring in the page, strictly
sorted (alphabetically, no duplicate block) — and within each block the
members are exactly the page entries with that broader name, in descending
order of `p_broader_given_narrower`, each annotated with
`round(p_broader_given_narrower * 100, 1)`. -/
theorem export_grouping (e : Engine) (min_p min_asym : ℚ)
    (min_cooc min_count : Int) :
    (((export_yaml_groups e min_p min_asym min_cooc min_count).map
        Prod.fst).Pairwise (fun a b => pyStrLE a b = true) ∧
      ((export_yaml_groups e min_p min_asym min_cooc min_count).map
        Prod.fst).Nodup) ∧
    (∀ n, n ∈ (export_yaml_groups e min_p min_asym min_cooc min_count).map
        Prod.fst ↔
      ∃ r, r ∈ export_yaml_results e min_p min_asym min_cooc min_count ∧
        r.broader_name = n) ∧
    (∀ k bl, (k, bl) ∈ export_yaml_groups e min_p min_asym min_cooc min_count →
      bl.Pairwise (fun a b =>
        b.p_broader_given_narrower ≤ a.p_broader_given_narrower) ∧
      List.Perm bl
        ((export_yaml_results e min_p min_asym min_cooc min_count).filter
          (fun r => r.broader_name == k))) ∧
    (∀ k el, (k, el) ∈ export_yaml_entries e min_p min_asym min_cooc
        min_count →
      ∀ q, q ∈ el →
        ∃ r, r ∈ export_yaml_results e min_p min_asym min_cooc min_count ∧
          r.broader_name = k ∧ q.1 = r.narrower_name ∧
          q.2 = pyRound1 (r.p_broader_given_narrower * 100)) := by
  have hkeys : (export_yaml_groups e min_p min_asym min_cooc min_count).map
      Prod.fst =
      stableSort (fun a b => pyStrLE a b)
        (dedupFirst ((export_yaml_results e min_p min_asym min_cooc
          min_count).map (fun r => r.broader_name))) := by
    unfold export_yaml_groups
    simp [List.map_map, Function.comp_def]
  have hgroup : ∀ k bl,
      (k, bl) ∈ export_yaml_groups e min_p min_asym min_cooc min_count →
      bl = stableSort (fun a b =>
          decide (b.p_broader_given_narrower ≤ a.p_broader_given_narrower))
        ((export_yaml_results e min_p min_asym min_cooc min_count).filter
          (fun r => r.broader_name == k)) := by
    intro k bl hmem
    unfold export_yaml_groups at hmem
    rcases List.mem_map.mp hmem with ⟨k', _, heq⟩
    injection heq with h1 h2
    subst h1
    exact h2.symm
  refine ⟨⟨?_, ?_⟩, ?_, ?_, ?_⟩
  · rw [hkeys]
    exact stableSort_pairwise pyStrLE_total
      (fun a b c h1 h2 => pyStrLE_trans h1 h2) _
  · rw [hkeys]
    exact stableSort_nodup (nodup_dedupFirst _)
  · intro n
    rw [hkeys, mem_stableSort, mem_dedupFirst, List.mem_map]
  · intro k bl hmem
    rw [hgroup k bl hmem]
    constructor
    · refine List.Pairwise.imp (fun h => of_decide_eq_true h) ?_
      refine stableSort_pairwise ?_ ?_ _
      · intro a b
        rcases le_total b.p_broader_given_narrower a.p_broader_given_narrower
          with h | h
        · exact Or.inl (by simpa using h)
        · exact Or.inr (by simpa using h)
      · intro a b c h1 h2
        simp only [decide_eq_true_eq] at h1 h2 ⊢
        exact le_trans h2 h1
    · exact stableSort_perm _ _
  · intro k el hmem q hq
    unfold export_yaml_entries at hmem
    rcases List.mem_map.mp hmem with ⟨⟨k', bl⟩, hbl, heq⟩
    injection heq with h1 h2
    subst h1
    subst h2
    rcases List.mem_map.mp hq with ⟨r, hr, rfl⟩
    have hrbl := hgroup k' bl hbl
    rw [hrbl, mem_stableSort] at hr
    have hrpage := List.mem_filter.mp hr
    refine ⟨r, hrpage.1, ?_, rfl, rfl⟩
    have := hrpage.2
    simpa [beq_iff_eq] using this

/-- C10: a whitespace-only (non-empty) concept name passes the route guard
of `/api/concept_tree` (which only rejects the exactly-empty string), does
not resolve any concept when no concept display name is empty, and yields a
suggestions-shaped response whose list is the `min(20, total concepts)`
highest-citation-count concepts: the stripped query is empty, and the empty
substring matches every concept name. -/
theorem whitespace_query_suggestions (e : Engine) (concept : String)
    (min_p_broader min_asymmetry : ℚ) (min_cooc min_count : Int)
    (hne : concept ≠ "")
    (hws : ∀ c ∈ concept.data, c.isWhitespace = true)
    (hnames : ∀ p ∈ e.concept_names, p.2 ≠ "") :
    ∃ l, api_concept_tree e concept min_p_broader min_asymmetry min_cooc
        min_count = Except.ok (ConceptTreeResult.suggestions l) ∧
      l.length = min 20 e.concept_names.length ∧
      l.Pairwise (fun a b => b.count ≤ a.count) ∧
      (∀ s, s ∈ l → ∃ p, p ∈ e.concept_names ∧
        s = Suggestion.mk p.1 p.2 (dictGetD e.concept_counts p.1 0)) ∧
      (∀ p, p ∈ e.concept_names →
        Suggestion.mk p.1 p.2 (dictGetD e.concept_counts p.1 0) ∉ l →
        ∀ s, s ∈ l → dictGetD e.concept_counts p.1 0 ≤ s.count) := by
  have hnl : pyStrip (pyLower concept) = "" :=
    pyStrip_pyLower_whitespace concept hws
  have hfind : e.concept_names.find? (fun p => pyLower p.2 == "") = none := by
    rw [List.find?_eq_none]
    intro p hp
    simp only [beq_iff_eq]
    exact fun hq => hnames p hp (pyLower_eq_empty_iff.mp hq)
  have hg : get_concept_tree e concept min_p_broader min_asymmetry min_cooc
      min_count = suggestionsFor e "" := by
    simp only [get_concept_tree]
    rw [hnl, hfind]
    rfl
  have hfilter : e.concept_names.filter (fun p => pyIn "" (pyLower p.2)) =
      e.concept_names :=
    List.filter_eq_self.mpr (fun p _ => pyIn_empty _)
  have htot : ∀ a b : Suggestion,
      decide (b.count ≤ a.count) = true ∨ decide (a.count ≤ b.count) = true := by
    intro a b
    rcases le_total b.count a.count with h | h
    · exact Or.inl (decide_eq_true h)
    · exact Or.inr (decide_eq_true h)
  have htrans : ∀ a b c : Suggestion,
      decide (b.count ≤ a.count) = true → decide (c.count ≤ b.count) = true →
      decide (c.count ≤ a.count) = true := by
    intro a b c h1 h2
    exact decide_eq_true (le_trans (of_decide_eq_true h2) (of_decide_eq_true h1))
  have hsugg : suggestionsFor e "" = ConceptTreeResult.suggestions
      ((stableSort (fun a b => decide (b.count ≤ a.count))
        (e.concept_names.map (fun p =>
          Suggestion.mk p.1 p.2 (dictGetD e.concept_counts p.1 0)))).take 20) := by
    unfold suggestionsFor
    rw [hfilter]
  refine ⟨(stableSort (fun a b => decide (b.count ≤ a.count))
      (e.concept_names.map (fun p =>
        Suggestion.mk p.1 p.2 (dictGetD e.concept_counts p.1 0)))).take 20,
    ?_, ?_, ?_, ?_, ?_⟩
  · unfold api_concept_tree
    rw [if_neg hne, hg, hsugg]
  · rw [List.length_take, length_stableSort, List.length_map]
  · have hp1 := stableSort_pairwise htot htrans
      (e.concept_names.map (fun p =>
        Suggestion.mk p.1 p.2 (dictGetD e.concept_counts p.1 0)))
    have hp2 := List.Pairwise.sublist (List.take_sublist 20 _) hp1
    exact hp2.imp (fun h => of_decide_eq_true h)
  · intro s hs
    have hms := mem_stableSort.mp (List.mem_of_mem_take hs)
    rcases List.mem_map.mp hms with ⟨p, hp, rfl⟩
    exact ⟨p, hp, rfl⟩
  · intro p hp hnotin s hs
    have hentry : Suggestion.mk p.1 p.2 (dictGetD e.concept_counts p.1 0) ∈
        e.concept_names.map (fun p =>
          Suggestion.mk p.1 p.2 (dictGetD e.concept_counts p.1 0)) :=
      List.mem_map.mpr ⟨p, hp, rfl⟩
    have hentryL : Suggestion.mk p.1 p.2 (dictGetD e.concept_counts p.1 0) ∈
        stableSort (fun a b => decide (b.count ≤ a.count))
          (e.concept_names.map (fun p =>
            Suggestion.mk p.1 p.2 (dictGetD e.concept_counts p.1 0))) :=
      mem_stableSort.mpr hentry
    have hsplit := (List.take_append_drop 20
      (stableSort (fun a b => decide (b.count ≤ a.count))
        (e.concept_names.map (fun p =>
          Suggestion.mk p.1 p.2 (dictGetD e.concept_counts p.1 0))))).symm
    have hdrop : Suggestion.mk p.1 p.2 (dictGetD e.concept_counts p.1 0) ∈
        (stableSort (fun a b => decide (b.count ≤ a.count))
          (e.concept_names.map (fun p =>
            Suggestion.mk p.1 p.2 (dictGetD e.concept_counts p.1 0)))).drop 20 := by
      rcases List.mem_append.mp (hsplit ▸ hentryL) with h | h
      · exact absurd h hnotin
      · exact h
    have hsorted := stableSort_pairwise htot htrans
      (e.concept_names.map (fun p =>
        Suggestion.mk p.1 p.2 (dictGetD e.concept_counts p.1 0)))
    rw [hsplit] at hsorted
    rcases List.pairwise_append.mp hsorted with ⟨_, _, hcross⟩
    exact of_decide_eq_true (hcross s hs _ hdrop)

/-- C10 (witness): the whitespace-query behaviour at the cyclic engine with
the query `" "` (three concepts, so the suggestion list has all three,
sorted by descending count). -/
theorem whitespace_query_suggestions_witness :
    (" " : String) ≠ "" ∧ (∀ c ∈ (" " : String).data, c.isWhitespace = true) ∧
    (∀ p ∈ cycleEngine.concept_names, p.2 ≠ "") ∧
    ∃ l, api_concept_tree cycleEngine " " 0 2 3 5 =
        Except.ok (ConceptTreeResult.suggestions l) ∧
      l.length = min 20 cycleEngine.concept_names.length ∧
      l.Pairwise (fun a b => b.count ≤ a.count) ∧
      (∀ s, s ∈ l → ∃ p, p ∈ cycleEngine.concept_names ∧
        s = Suggestion.mk p.1 p.2 (dictGetD cycleEngine.concept_counts p.1 0)) ∧
      (∀ p, p ∈ cycleEngine.concept_names →
        Suggestion.mk p.1 p.2 (dictGetD cycleEngine.concept_counts p.1 0) ∉ l →
        ∀ s, s ∈ l →
          dictGetD cycleEngine.concept_counts p.1 0 ≤ s.count) :=
  ⟨by decide, by decide, by decide,
    whitespace_query_suggestions cycleEngine " " 0 2 3 5 (by decide)
      (by decide) (by decide)⟩
